import Mathlib

/-!
Shallow embedding of the `neo4j-testcontainers` configuration engine
(`src/lib.rs`): the `Neo4j` builder, deferred `Value` resolution, the
environment derivation performed by `build`, and the `Neo4jImage` runtime
handle. The process environment and the license-acceptance file are passed
explicitly; panics are modelled by `Option`.
-/

namespace Neo4jTC

/-- Available Neo4j plugins (`enum Neo4jLabsPlugin` in the source). -/
inductive Neo4jLabsPlugin where
  | Apoc
  | ApocCore
  | Bloom
  | Streams
  | GraphDataScience
  | NeoSemantics
  | Custom (plugin_name : String)
deriving DecidableEq

/-- Rust `impl Display for Neo4jLabsPlugin`: the canonical display form. -/
def Neo4jLabsPlugin.display : Neo4jLabsPlugin → String
  | .Apoc => "apoc"
  | .ApocCore => "apoc-core"
  | .Bloom => "bloom"
  | .Streams => "streams"
  | .GraphDataScience => "graph-data-science"
  | .NeoSemantics => "n10s"
  | .Custom plugin_name => plugin_name

/-- Key realising the derived `Ord` of `Neo4jLabsPlugin`: variants compare in
declaration order and `Custom` values compare by their carried string
(byte-lexicographically, which agrees with codepoint order under UTF-8). -/
def pluginKey : Neo4jLabsPlugin → Lex (Nat × List Char)
  | .Apoc => toLex (0, [])
  | .ApocCore => toLex (1, [])
  | .Bloom => toLex (2, [])
  | .Streams => toLex (3, [])
  | .GraphDataScience => toLex (4, [])
  | .NeoSemantics => toLex (5, [])
  | .Custom s => toLex (6, s.data)

theorem pluginKey_injective : Function.Injective pluginKey := by
  intro a b h
  cases a <;> cases b <;> simp_all [pluginKey, toLex_inj, Prod.ext_iff]
  exact congrArg String.mk h

instance : LinearOrder Neo4jLabsPlugin := LinearOrder.lift' pluginKey pluginKey_injective

/-- Deferred configuration values (`enum Value` in the source). -/
inductive Value where
  | Env (var : String) (fallback : String)
  | Default (value : String)
  | Value (value : String)
  | Unset
deriving DecidableEq

/-- The process environment, as a function from variable names to values
(`none` models both `NotPresent` and `NotUnicode` errors of `std::env::var`). -/
def ProcessEnv := String → Option String

/-- The Neo4j configuration builder (`struct Neo4j`). -/
structure Neo4j where
  version : Value
  user : Value
  pass : Value
  enterprise : Bool
  plugins : List Neo4jLabsPlugin
deriving DecidableEq

def Neo4j.DEFAULT_USER : String := "neo4j"

def Neo4j.DEFAULT_PASS : String := "neo"

def Neo4j.DEFAULT_VERSION_TAG : String := "5"

/-- `Neo4j::new`. -/
def Neo4j.new : Neo4j :=
  { version := .Default Neo4j.DEFAULT_VERSION_TAG
    user := .Default Neo4j.DEFAULT_USER
    pass := .Default Neo4j.DEFAULT_PASS
    enterprise := false
    plugins := [] }

/-- `Neo4j::from_env`. -/
def Neo4j.from_env : Neo4j :=
  { version := .Env "NEO4J_VERSION_TAG" Neo4j.DEFAULT_VERSION_TAG
    user := .Env "NEO4J_TEST_USER" Neo4j.DEFAULT_USER
    pass := .Env "NEO4J_TEST_PASS" Neo4j.DEFAULT_PASS
    enterprise := false
    plugins := [] }

/-- `Neo4j::value`: resolution of a deferred value against the process
environment. -/
def Neo4j.value (env : ProcessEnv) : Value → Option String
  | .Env var fallback => some ((env var).getD fallback)
  | .Default v => some v
  | .Value v => some v
  | .Unset => none

/-- Modelled from the spec: the version validator. The actual parser is
`lenient_semver::parse_into` with the repository's `ValidateVersion` builder;
the parser itself lives in the external `lenient_semver` crate and is not part
of this repository. The spec restricts the grammar to `MAJOR[.MINOR[.PATCH]]`,
each segment a non-negative integer with no leading garbage; any pre-release
segment, build-metadata segment, or numeric component beyond the third causes
rejection. -/
def validVersion (s : String) : Bool :=
  let segs := s.data.splitOn '.'
  decide (segs.length ≤ 3) && segs.all (fun t => !t.isEmpty && t.all Char.isDigit)

/-- `Neo4j::with_version`. -/
def Neo4j.with_version (c : Neo4j) (version : String) : Except String Neo4j :=
  if validVersion version then .ok { c with version := .Value version }
  else .error ("Invalid version: " ++ version)

/-- `Neo4j::with_user`. -/
def Neo4j.with_user (c : Neo4j) (user : String) : Neo4j :=
  { c with user := .Value user }

/-- `Neo4j::with_password`. -/
def Neo4j.with_password (c : Neo4j) (pass : String) : Neo4j :=
  { c with pass := .Value pass }

/-- `Neo4j::without_authentication`. -/
def Neo4j.without_authentication (c : Neo4j) : Neo4j :=
  { c with user := .Unset, pass := .Unset }

def ACCEPTANCE_FILE_NAME : String := "container-license-acceptance.txt"

/-- The error message built by `Neo4j::with_enterprise_edition` on a failed
license check (the `concat!`/`format!` in the source). -/
def licenseMsg (image : String) : String :=
  "You need to accept the Neo4j Enterprise Edition license " ++
  "by creating a file named `" ++ ACCEPTANCE_FILE_NAME ++ "` in the current directory " ++
  "and adding the following line to it:\n\n\t" ++ image

/-- Model of Rust `str::trim`: drop leading and trailing whitespace. -/
def trimString (s : String) : String :=
  ⟨((s.data.dropWhile Char.isWhitespace).reverse.dropWhile Char.isWhitespace).reverse⟩

/-- The license check of `Neo4j::with_enterprise_edition`: the acceptance file
is a list of lines, each possibly unreadable (`none`); the whole file is `none`
when missing or unreadable. Some successfully read line must trim to `image`. -/
def hasLicenseAcceptance (file : Option (List (Option String))) (image : String) : Bool :=
  match file with
  | none => false
  | some lines => lines.any (fun o => (o.map (fun line => trimString line == image)).getD false)

/-- `Neo4j::with_enterprise_edition`. The filesystem is passed in as `file`;
the `expect` on the version resolution is modelled by the outer `Option`
(`none` is the panic). -/
def Neo4j.with_enterprise_edition (env : ProcessEnv) (file : Option (List (Option String)))
    (c : Neo4j) : Option (Except String Neo4j) :=
  match Neo4j.value env c.version with
  | none => none
  | some version =>
    let image := "neo4j:" ++ version ++ "-enterprise"
    if hasLicenseAcceptance file image then some (.ok { c with enterprise := true })
    else some (.error (licenseMsg image))

/-- `Neo4j::with_neo4j_labs_plugin`: extends the accumulated plugin list. -/
def Neo4j.with_neo4j_labs_plugin (c : Neo4j) (plugins : List Neo4jLabsPlugin) : Neo4j :=
  { c with plugins := c.plugins ++ plugins }

/-- Model of `HashMap::insert`: drop any binding of the key, add the new one. -/
def envInsert (m : List (String × String)) (kv : String × String) : List (String × String) :=
  m.filter (fun p => p.1 != kv.1) ++ [kv]

/-- Lookup in the environment mapping. -/
def envGet (m : List (String × String)) (k : String) : Option String :=
  (m.find? (fun p => p.1 == k)).map (fun p => p.2)

/-- `Neo4j::enterprise_env`. -/
def Neo4j.enterprise_env (c : Neo4j) : List (String × String) :=
  if c.enterprise then [("NEO4J_ACCEPT_LICENSE_AGREEMENT", "yes")] else []

/-- `Neo4j::auth_env`. -/
def Neo4j.auth_env (env : ProcessEnv) (c : Neo4j) : List (String × String) :=
  let auth :=
    match Neo4j.value env c.user, Neo4j.value env c.pass with
    | some user, some pass => user ++ "/" ++ pass
    | _, _ => "none"
  [("NEO4J_AUTH", auth)]

/-- `Neo4j::plugins_env`, applied by `build` to the already sorted and
deduplicated plugin list. -/
def Neo4j.plugins_env (plugins : List Neo4jLabsPlugin) : List (String × String) :=
  if plugins.isEmpty then []
  else
    [("NEO4JLABS_PLUGINS",
      "[" ++ String.intercalate "," (plugins.map (fun p => "\"" ++ p.display ++ "\"")) ++ "]")]

/-- `Neo4j::conf_env`. `pass.len()` in Rust is the UTF-8 byte count. -/
def Neo4j.conf_env (env : ProcessEnv) (c : Neo4j) : List (String × String) :=
  match Neo4j.value env c.pass with
  | none => []
  | some pass =>
    if pass.utf8ByteSize < 8 then
      [("NEO4J_dbms_security_auth__minimum__password__length", toString pass.utf8ByteSize)]
    else []

/-- Model of `Vec::dedup`: remove consecutive duplicates. -/
def dedupConsec {α : Type} [DecidableEq α] : List α → List α
  | [] => []
  | [a] => [a]
  | a :: b :: l => if a = b then dedupConsec (b :: l) else a :: dedupConsec (b :: l)

/-- The engine-reported container state (external `testcontainers` type):
host-mapped ports per container port and IP family. -/
structure ContainerState where
  host_port_ipv4 : Nat → Nat
  host_port_ipv6 : Nat → Nat

/-- An exec command (external `testcontainers` type); `exec_after_start`
always returns an empty list of these. -/
structure ExecCommand where
  cmd : String

/-- The built image (`struct Neo4jImage`). The `RefCell<Option<ContainerState>>`
is an `Option` field updated functionally. -/
structure Neo4jImage where
  version : String
  auth : Option (String × String)
  env_vars : List (String × String)
  state : Option ContainerState

/-- `Neo4j::build`. `self.plugins.sort()` is Rust's stable sort under the
derived `Ord`; the `expect` on the version is the outer `Option`. -/
def Neo4j.build (env : ProcessEnv) (c : Neo4j) : Option Neo4jImage :=
  let plugins := dedupConsec (List.insertionSort (fun p q : Neo4jLabsPlugin => p ≤ q) c.plugins)
  match Neo4j.value env c.version with
  | none => none
  | some version =>
    let env_vars := List.foldl envInsert []
      (c.enterprise_env ++ Neo4j.auth_env env c ++ Neo4j.plugins_env plugins ++
        Neo4j.conf_env env c)
    let auth := (Neo4j.value env c.user).bind fun user =>
      (Neo4j.value env c.pass).map fun pass => (user, pass)
    some
      { version := version ++ (if c.enterprise then "-enterprise" else "")
        auth := auth
        env_vars := env_vars
        state := none }

/-- `Neo4jImage::user`. -/
def Neo4jImage.user (i : Neo4jImage) : Option String := i.auth.map (fun a => a.1)

/-- `Neo4jImage::password`. -/
def Neo4jImage.password (i : Neo4jImage) : Option String := i.auth.map (fun a => a.2)

/-- `Image::name for Neo4jImage`. -/
def Neo4jImage.name (_ : Neo4jImage) : String := "neo4j"

/-- `Image::tag for Neo4jImage`. -/
def Neo4jImage.tag (i : Neo4jImage) : String := i.version

/-- `Image::ready_conditions for Neo4jImage` (the stdout markers). -/
def Neo4jImage.ready_conditions (_ : Neo4jImage) : List String :=
  ["Bolt enabled on", "Started."]

/-- `Neo4jImage::bolt_uri_ipv4`; `none` models the `expect` panic on an
unstarted container. -/
def Neo4jImage.bolt_uri_ipv4 (i : Neo4jImage) : Option String :=
  i.state.map (fun cs => "bolt://127.0.0.1:" ++ toString (cs.host_port_ipv4 7687))

/-- `Neo4jImage::bolt_uri_ipv6`. -/
def Neo4jImage.bolt_uri_ipv6 (i : Neo4jImage) : Option String :=
  i.state.map (fun cs => "bolt://[::1]:" ++ toString (cs.host_port_ipv6 7687))

/-- `Neo4jImage::http_uri_ipv4`. -/
def Neo4jImage.http_uri_ipv4 (i : Neo4jImage) : Option String :=
  i.state.map (fun cs => "http://127.0.0.1:" ++ toString (cs.host_port_ipv4 7474))

/-- `Neo4jImage::http_uri_ipv6`. -/
def Neo4jImage.http_uri_ipv6 (i : Neo4jImage) : Option String :=
  i.state.map (fun cs => "http://[::1]:" ++ toString (cs.host_port_ipv6 7474))

/-- `Image::exec_after_start for Neo4jImage`: store the engine state in the
state cell and return no exec commands (functional model of the `RefCell`
write). -/
def Neo4jImage.exec_after_start (i : Neo4jImage) (cs : ContainerState) :
    Neo4jImage × List ExecCommand :=
  ({ i with state := some cs }, [])

/-- The version grammar as the claim states it: one to three dot-separated,
non-empty, all-digit segments. -/
def VersionGrammar (s : String) : Prop :=
  ∃ segs : List (List Char),
    s.data = List.intercalate ['.'] segs ∧
    1 ≤ segs.length ∧ segs.length ≤ 3 ∧
    ∀ t ∈ segs, t ≠ [] ∧ ∀ ch ∈ t, ch.isDigit = true

/-- The plugin entry as the claim literally describes it: plugins sorted by
their canonical display form, deduplicated, quoted, comma-joined, bracketed. -/
def pluginsEntryByDisplay (plugins : List Neo4jLabsPlugin) : Option String :=
  if plugins.isEmpty then none
  else
    let sorted := dedupConsec
      (List.insertionSort (fun p q : Neo4jLabsPlugin => p.display.data ≤ q.display.data) plugins)
    some ("[" ++ String.intercalate "," (sorted.map (fun p => "\"" ++ p.display ++ "\"")) ++ "]")

/-- The derived plugin entry after a sequence of `with_neo4j_labs_plugin`
calls on a base configuration, followed by `build`. -/
def pluginEntryAfter (env : ProcessEnv) (c : Neo4j) (calls : List (List Neo4jLabsPlugin)) :
    Option (Option String) :=
  (Neo4j.build env (calls.foldl Neo4j.with_neo4j_labs_plugin c)).map
    (fun img => envGet img.env_vars "NEO4JLABS_PLUGINS")

/-- Configurations reachable through the public builder API. -/
inductive Reachable : Neo4j → Prop where
  | new : Reachable Neo4j.new
  | from_env : Reachable Neo4j.from_env
  | with_version (c c' : Neo4j) (s : String) :
      Reachable c → c.with_version s = .ok c' → Reachable c'
  | with_user (c : Neo4j) (u : String) : Reachable c → Reachable (c.with_user u)
  | with_password (c : Neo4j) (p : String) : Reachable c → Reachable (c.with_password p)
  | without_authentication (c : Neo4j) : Reachable c → Reachable c.without_authentication
  | with_enterprise_edition (c c' : Neo4j) (env : ProcessEnv)
      (file : Option (List (Option String))) :
      Reachable c → Neo4j.with_enterprise_edition env file c = some (.ok c') → Reachable c'
  | with_neo4j_labs_plugin (c : Neo4j) (ps : List Neo4jLabsPlugin) :
      Reachable c → Reachable (c.with_neo4j_labs_plugin ps)

/-! ### Helper lemmas about `dedupConsec` and sorting -/

theorem mem_dedupConsec {α : Type} [DecidableEq α] (x : α) :
    ∀ l : List α, x ∈ dedupConsec l ↔ x ∈ l
  | [] => by simp [dedupConsec]
  | [a] => by simp [dedupConsec]
  | a :: b :: l => by
    by_cases h : a = b
    · subst h
      rw [dedupConsec, if_pos rfl, mem_dedupConsec x (a :: l)]
      simp
    · rw [dedupConsec, if_neg h]
      simp [mem_dedupConsec x (b :: l)]

theorem dedupConsec_sorted {α : Type} [LinearOrder α] [DecidableEq α] :
    ∀ l : List α, l.Sorted (· ≤ ·) → (dedupConsec l).Sorted (· < ·)
  | [], _ => by simp [dedupConsec]
  | [a], _ => by simp [dedupConsec]
  | a :: b :: l, h => by
    rw [List.sorted_cons] at h
    obtain ⟨ha, hbl⟩ := h
    by_cases hab : a = b
    · subst hab
      rw [dedupConsec, if_pos rfl]
      exact dedupConsec_sorted (a :: l) hbl
    · rw [dedupConsec, if_neg hab, List.sorted_cons]
      refine ⟨?_, dedupConsec_sorted (b :: l) hbl⟩
      intro x hx
      have hx' : x ∈ b :: l := (mem_dedupConsec x _).1 hx
      have hab' : a < b := lt_of_le_of_ne (ha b (List.mem_cons_self b l)) hab
      rcases List.mem_cons.1 hx' with rfl | hxl
      · exact hab'
      · exact lt_of_lt_of_le hab' ((List.sorted_cons.1 hbl).1 x hxl)

theorem sorted_lt_eq_of_mem_iff {α : Type} [LinearOrder α] {l₁ l₂ : List α}
    (h₁ : l₁.Sorted (· < ·)) (h₂ : l₂.Sorted (· < ·)) (h : ∀ x, x ∈ l₁ ↔ x ∈ l₂) :
    l₁ = l₂ :=
  List.eq_of_perm_of_sorted ((List.perm_ext_iff_of_nodup h₁.nodup h₂.nodup).2 h) h₁ h₂

theorem sortDedup_eq_of_mem_iff {l₁ l₂ : List Neo4jLabsPlugin}
    (h : ∀ p, p ∈ l₁ ↔ p ∈ l₂) :
    dedupConsec (List.insertionSort (· ≤ ·) l₁) =
      dedupConsec (List.insertionSort (· ≤ ·) l₂) := by
  refine sorted_lt_eq_of_mem_iff
    (dedupConsec_sorted _ (List.sorted_insertionSort _ _))
    (dedupConsec_sorted _ (List.sorted_insertionSort _ _)) ?_
  intro x
  rw [mem_dedupConsec, mem_dedupConsec, List.mem_insertionSort, List.mem_insertionSort]
  exact h x

/-! ### Helper lemmas about the environment mapping -/

theorem find_filter_ne (m : List (String × String)) (k : String) :
    (m.filter fun p => p.1 != k).find? (fun p => p.1 == k) = none := by
  rw [List.find?_eq_none]
  intro x hx
  have hq := List.of_mem_filter hx
  simp_all

theorem find_filter_of_ne {l : List (String × String)} {k k' : String} (h : k' ≠ k) :
    (l.filter fun p => p.1 != k').find? (fun p => p.1 == k) = l.find? (fun p => p.1 == k) := by
  induction l with
  | nil => rfl
  | cons a l ih =>
    rw [List.filter_cons]
    by_cases hpa : a.1 = k
    · have hqa : (a.1 != k') = true := by rw [hpa, bne_iff_ne]; exact Ne.symm h
      rw [if_pos hqa, List.find?_cons_of_pos _ (by simp [hpa]),
        List.find?_cons_of_pos _ (by simp [hpa])]
    · by_cases hqa : (a.1 != k') = true
      · rw [if_pos hqa, List.find?_cons_of_neg _ (by simp [hpa]),
          List.find?_cons_of_neg _ (by simp [hpa]), ih]
      · rw [if_neg hqa, List.find?_cons_of_neg _ (by simp [hpa]), ih]

theorem envGet_envInsert_self (m : List (String × String)) (k v : String) :
    envGet (envInsert m (k, v)) k = some v := by
  unfold envGet envInsert
  rw [List.find?_append, find_filter_ne]
  simp

theorem envGet_envInsert_ne (m : List (String × String)) (kv : String × String) (k : String)
    (h : kv.1 ≠ k) : envGet (envInsert m kv) k = envGet m k := by
  unfold envGet envInsert
  rw [List.find?_append, find_filter_of_ne h]
  have h2 : List.find? (fun p => p.1 == k) [kv] = none := by simp [h]
  rw [h2, Option.or_none]

theorem envGet_foldl_of_not_mem (L : List (String × String)) (m : List (String × String))
    (k : String) (h : ∀ kv ∈ L, kv.1 ≠ k) :
    envGet (List.foldl envInsert m L) k = envGet m k := by
  induction L generalizing m with
  | nil => rfl
  | cons kv L ih =>
    rw [List.foldl_cons, ih _ (fun x hx => h x (List.mem_cons_of_mem _ hx)),
      envGet_envInsert_ne _ _ _ (h kv (List.mem_cons_self _ _))]

theorem enterprise_env_key {c : Neo4j} {kv : String × String} (h : kv ∈ c.enterprise_env) :
    kv.1 = "NEO4J_ACCEPT_LICENSE_AGREEMENT" := by
  unfold Neo4j.enterprise_env at h
  split at h <;> simp_all

theorem auth_env_key {env : ProcessEnv} {c : Neo4j} {kv : String × String}
    (h : kv ∈ Neo4j.auth_env env c) : kv.1 = "NEO4J_AUTH" := by
  rw [List.mem_singleton.1 h]

theorem plugins_env_key {ps : List Neo4jLabsPlugin} {kv : String × String}
    (h : kv ∈ Neo4j.plugins_env ps) : kv.1 = "NEO4JLABS_PLUGINS" := by
  unfold Neo4j.plugins_env at h
  split at h <;> simp_all

theorem conf_env_key {env : ProcessEnv} {c : Neo4j} {kv : String × String}
    (h : kv ∈ Neo4j.conf_env env c) :
    kv.1 = "NEO4J_dbms_security_auth__minimum__password__length" := by
  unfold Neo4j.conf_env at h
  split at h
  · simp_all
  · split at h <;> simp_all

/-- The full derived environment of a configuration, as `build` assembles it. -/
def builtEnvVars (env : ProcessEnv) (c : Neo4j) : List (String × String) :=
  List.foldl envInsert []
    (c.enterprise_env ++ Neo4j.auth_env env c ++
      Neo4j.plugins_env (dedupConsec (List.insertionSort (· ≤ ·) c.plugins)) ++
      Neo4j.conf_env env c)

theorem build_eq (env : ProcessEnv) (c : Neo4j) (v : String)
    (hv : Neo4j.value env c.version = some v) :
    Neo4j.build env c = some
      { version := v ++ (if c.enterprise then "-enterprise" else "")
        auth := (Neo4j.value env c.user).bind fun user =>
          (Neo4j.value env c.pass).map fun pass => (user, pass)
        env_vars := builtEnvVars env c
        state := none } := by
  unfold Neo4j.build builtEnvVars
  rw [hv]

theorem builtEnvVars_auth (env : ProcessEnv) (c : Neo4j) :
    envGet (builtEnvVars env c) "NEO4J_AUTH" =
      some (match Neo4j.value env c.user, Neo4j.value env c.pass with
            | some u, some p => u ++ "/" ++ p
            | _, _ => "none") := by
  unfold builtEnvVars
  rw [List.foldl_append, List.foldl_append, List.foldl_append]
  rw [envGet_foldl_of_not_mem _ _ _ (fun kv hkv => by rw [conf_env_key hkv]; decide)]
  rw [envGet_foldl_of_not_mem _ _ _ (fun kv hkv => by rw [plugins_env_key hkv]; decide)]
  unfold Neo4j.auth_env
  rw [List.foldl_cons, List.foldl_nil, envGet_envInsert_self]

theorem builtEnvVars_plugins (env : ProcessEnv) (c : Neo4j) :
    envGet (builtEnvVars env c) "NEO4JLABS_PLUGINS" =
      if (dedupConsec (List.insertionSort (· ≤ ·) c.plugins)).isEmpty then none
      else some ("[" ++ String.intercalate ","
        ((dedupConsec (List.insertionSort (· ≤ ·) c.plugins)).map
          fun p => "\"" ++ p.display ++ "\"") ++ "]") := by
  unfold builtEnvVars
  rw [List.foldl_append, List.foldl_append, List.foldl_append]
  rw [envGet_foldl_of_not_mem _ _ _ (fun kv hkv => by rw [conf_env_key hkv]; decide)]
  unfold Neo4j.plugins_env
  split
  · rename_i hps
    rw [List.foldl_nil,
      envGet_foldl_of_not_mem _ _ _ (fun kv hkv => by rw [auth_env_key hkv]; decide),
      envGet_foldl_of_not_mem _ _ _ (fun kv hkv => by rw [enterprise_env_key hkv]; decide)]
    rfl
  · rename_i hps
    rw [List.foldl_cons, List.foldl_nil, envGet_envInsert_self]

theorem builtEnvVars_license (env : ProcessEnv) (c : Neo4j) :
    envGet (builtEnvVars env c) "NEO4J_ACCEPT_LICENSE_AGREEMENT" =
      if c.enterprise then some "yes" else none := by
  unfold builtEnvVars
  rw [List.foldl_append, List.foldl_append, List.foldl_append]
  rw [envGet_foldl_of_not_mem _ _ _ (fun kv hkv => by rw [conf_env_key hkv]; decide)]
  rw [envGet_foldl_of_not_mem _ _ _ (fun kv hkv => by rw [plugins_env_key hkv]; decide)]
  rw [envGet_foldl_of_not_mem _ _ _ (fun kv hkv => by rw [auth_env_key hkv]; decide)]
  unfold Neo4j.enterprise_env
  split
  · rw [List.foldl_cons, List.foldl_nil, envGet_envInsert_self]
  · rfl

theorem builtEnvVars_pwlen (env : ProcessEnv) (c : Neo4j) :
    envGet (builtEnvVars env c) "NEO4J_dbms_security_auth__minimum__password__length" =
      (match Neo4j.value env c.pass with
       | none => none
       | some pass =>
         if pass.utf8ByteSize < 8 then some (toString pass.utf8ByteSize) else none) := by
  unfold builtEnvVars
  rw [List.foldl_append, List.foldl_append, List.foldl_append]
  unfold Neo4j.conf_env
  have hskip : envGet (List.foldl envInsert
      (List.foldl envInsert (List.foldl envInsert [] c.enterprise_env) (Neo4j.auth_env env c))
      (Neo4j.plugins_env (dedupConsec (List.insertionSort (· ≤ ·) c.plugins))))
      "NEO4J_dbms_security_auth__minimum__password__length" = none := by
    rw [envGet_foldl_of_not_mem _ _ _ (fun kv hkv => by rw [plugins_env_key hkv]; decide),
      envGet_foldl_of_not_mem _ _ _ (fun kv hkv => by rw [auth_env_key hkv]; decide),
      envGet_foldl_of_not_mem _ _ _ (fun kv hkv => by rw [enterprise_env_key hkv]; decide)]
    rfl
  split
  · rw [List.foldl_nil, hskip]
  · split
    · rw [List.foldl_cons, List.foldl_nil, envGet_envInsert_self]
    · rw [List.foldl_nil, hskip]

theorem foldl_with_plugin (c : Neo4j) (calls : List (List Neo4jLabsPlugin)) :
    calls.foldl Neo4j.with_neo4j_labs_plugin c =
      { c with plugins := c.plugins ++ calls.flatten } := by
  induction calls generalizing c with
  | nil => simp
  | cons ps calls ih => simp [Neo4j.with_neo4j_labs_plugin, ih]

/-! ### Further helper lemmas -/

theorem validVersion_iff (s : String) : validVersion s = true ↔ VersionGrammar s := by
  constructor
  · intro h
    simp only [validVersion, Bool.and_eq_true, decide_eq_true_eq, List.all_eq_true] at h
    obtain ⟨h3, hseg⟩ := h
    refine ⟨s.data.splitOn '.', (List.intercalate_splitOn s.data '.').symm, ?_, h3, ?_⟩
    · have hne : s.data.splitOn '.' ≠ [] := List.splitOnP_ne_nil _ s.data
      exact Nat.one_le_iff_ne_zero.2 fun h0 => hne (List.eq_nil_of_length_eq_zero h0)
    · intro t ht
      have h2 := hseg t ht
      simp only [Bool.and_eq_true, Bool.not_eq_true', List.isEmpty_eq_false,
        List.all_eq_true] at h2
      exact ⟨h2.1, h2.2⟩
  · rintro ⟨segs, hs, h1, h3, hdig⟩
    have hnodot : ∀ t ∈ segs, '.' ∉ t := by
      intro t ht hmem
      have hd := (hdig t ht).2 _ hmem
      simp at hd
    have hne : segs ≠ [] := by
      intro hnil
      rw [hnil] at h1
      simp at h1
    have hsplit : s.data.splitOn '.' = segs := by
      rw [hs]
      exact List.splitOn_intercalate segs '.' hnodot hne
    simp only [validVersion, hsplit, Bool.and_eq_true, decide_eq_true_eq, List.all_eq_true]
    refine ⟨h3, fun t ht => ?_⟩
    simp only [Bool.and_eq_true, Bool.not_eq_true', List.isEmpty_eq_false, List.all_eq_true]
    exact ⟨(hdig t ht).1, (hdig t ht).2⟩

theorem build_none (env : ProcessEnv) (c : Neo4j)
    (hv : Neo4j.value env c.version = none) : Neo4j.build env c = none := by
  unfold Neo4j.build
  rw [hv]

/-- Shape of a successfully built image in terms of its configuration. -/
theorem build_elim (env : ProcessEnv) (c : Neo4j) (img : Neo4jImage)
    (h : Neo4j.build env c = some img) :
    img.env_vars = builtEnvVars env c ∧
    img.auth = ((Neo4j.value env c.user).bind fun user =>
      (Neo4j.value env c.pass).map fun pass => (user, pass)) ∧
    ∃ v, Neo4j.value env c.version = some v ∧
      img.version = v ++ (if c.enterprise then "-enterprise" else "") ∧
      img.state = none := by
  cases hv : Neo4j.value env c.version with
  | none => rw [build_none env c hv] at h; cases h
  | some v =>
    rw [build_eq env c v hv] at h
    injection h with h
    subst h
    exact ⟨rfl, rfl, v, rfl, rfl, rfl⟩

/-! ### Claims -/

/-- C1: for every builder state and input string, `with_version` succeeds
exactly when the string matches `MAJOR[.MINOR[.PATCH]]` with purely numeric
segments (no pre-release, no build metadata, no fourth component); on success
the stored version is the input string itself (no normalization) and all
other fields are unchanged; on failure the result is the `InvalidVersion`
error naming the offending literal. -/
theorem c1_with_version (c : Neo4j) (s : String) :
    ((∃ c', c.with_version s = .ok c') ↔ VersionGrammar s) ∧
    (∀ c', c.with_version s = .ok c' → c' = { c with version := .Value s }) ∧
    (¬ VersionGrammar s → c.with_version s = .error ("Invalid version: " ++ s)) := by
  unfold Neo4j.with_version
  by_cases h : validVersion s = true
  · rw [if_pos h]
    refine ⟨⟨fun _ => (validVersion_iff s).1 h, fun _ => ⟨_, rfl⟩⟩, ?_, ?_⟩
    · intro c' hc'
      injection hc' with hc'
      exact hc'.symm
    · intro hng
      exact absurd ((validVersion_iff s).1 h) hng
  · rw [if_neg h]
    refine ⟨⟨?_, ?_⟩, ?_, fun _ => rfl⟩
    · rintro ⟨c', hc'⟩
      cases hc'
    · intro hg
      exact absurd ((validVersion_iff s).2 hg) h
    · intro c' hc'
      cases hc'

/-- Witness for C1 at the valid input `"4.2"` and the invalid input
`"4.2.0-enterprise"`. -/
theorem c1_with_version_witness :
    Neo4j.new.with_version "4.2" = .ok { Neo4j.new with version := .Value "4.2" } ∧
    Neo4j.new.with_version "4.2.0-enterprise" =
      .error ("Invalid version: " ++ "4.2.0-enterprise") := by
  constructor
  · obtain ⟨c', hc'⟩ := (c1_with_version Neo4j.new "4.2").1.mpr
      ((validVersion_iff "4.2").1 (by decide))
    rw [hc', (c1_with_version Neo4j.new "4.2").2.1 c' hc']
  · exact (c1_with_version Neo4j.new "4.2.0-enterprise").2.2
      (fun hg => absurd ((validVersion_iff "4.2.0-enterprise").2 hg) (by decide))

/-- C7: every endpoint accessor called before the post-start state slot is
written signals the precondition violation (the modelled `expect` panic,
`none`) and never silently returns a value; once the slot holds engine
state, each accessor combines the host-mapped port of the corresponding
well-known container port (Bolt 7687, HTTP 7474) with the loopback address
of the requested IP family. -/
theorem c7_endpoint_accessors (img : Neo4jImage) :
    (img.state = none →
      img.bolt_uri_ipv4 = none ∧ img.bolt_uri_ipv6 = none ∧
      img.http_uri_ipv4 = none ∧ img.http_uri_ipv6 = none) ∧
    (∀ cs, img.state = some cs →
      img.bolt_uri_ipv4 = some ("bolt://127.0.0.1:" ++ toString (cs.host_port_ipv4 7687)) ∧
      img.bolt_uri_ipv6 = some ("bolt://[::1]:" ++ toString (cs.host_port_ipv6 7687)) ∧
      img.http_uri_ipv4 = some ("http://127.0.0.1:" ++ toString (cs.host_port_ipv4 7474)) ∧
      img.http_uri_ipv6 = some ("http://[::1]:" ++ toString (cs.host_port_ipv6 7474))) := by
  constructor
  · intro h
    simp [Neo4jImage.bolt_uri_ipv4, Neo4jImage.bolt_uri_ipv6, Neo4jImage.http_uri_ipv4,
      Neo4jImage.http_uri_ipv6, h]
  · intro cs h
    simp [Neo4jImage.bolt_uri_ipv4, Neo4jImage.bolt_uri_ipv6, Neo4jImage.http_uri_ipv4,
      Neo4jImage.http_uri_ipv6, h]

/-- Witness for C7: an unstarted image answers no endpoint query; after the
state slot is filled the accessors answer with the mapped ports. -/
theorem c7_endpoint_accessors_witness :
    (Neo4jImage.bolt_uri_ipv4
        { version := "5", auth := none, env_vars := [], state := none } = none ∧
      Neo4jImage.bolt_uri_ipv6
        { version := "5", auth := none, env_vars := [], state := none } = none ∧
      Neo4jImage.http_uri_ipv4
        { version := "5", auth := none, env_vars := [], state := none } = none ∧
      Neo4jImage.http_uri_ipv6
        { version := "5", auth := none, env_vars := [], state := none } = none) ∧
    (Neo4jImage.bolt_uri_ipv4
        { version := "5", auth := none, env_vars := [],
          state := some { host_port_ipv4 := fun _ => 1234, host_port_ipv6 := fun _ => 4321 } } =
      some "bolt://127.0.0.1:1234" ∧
      Neo4jImage.http_uri_ipv6
        { version := "5", auth := none, env_vars := [],
          state := some { host_port_ipv4 := fun _ => 1234, host_port_ipv6 := fun _ => 4321 } } =
      some "http://[::1]:4321") := by
  constructor
  · exact (c7_endpoint_accessors _).1 rfl
  · have h := (c7_endpoint_accessors
      { version := "5", auth := none, env_vars := [],
        state := some { host_port_ipv4 := fun _ => 1234, host_port_ipv6 := fun _ => 4321 } }).2
      { host_port_ipv4 := fun _ => 1234, host_port_ipv6 := fun _ => 4321 } rfl
    exact ⟨h.1, h.2.2.2⟩

/-- C10: `exec_after_start` stores the supplied engine state and returns an
empty command list; a second call is not rejected but silently overwrites
the stored state, and endpoint queries then use the most recently written
state. -/
theorem c10_exec_after_start (img : Neo4jImage) (cs cs' : ContainerState) :
    (img.exec_after_start cs).1.state = some cs ∧
    (img.exec_after_start cs).2 = [] ∧
    ((img.exec_after_start cs').1.exec_after_start cs).1.state = some cs ∧
    ((img.exec_after_start cs').1.exec_after_start cs).1.bolt_uri_ipv4 =
      some ("bolt://127.0.0.1:" ++ toString (cs.host_port_ipv4 7687)) :=
  ⟨rfl, rfl, rfl, rfl⟩

/-- C4: the built image's `NEO4J_AUTH` entry is the literal disabling token
`"none"` and the `user`/`password` accessors report absent when either
credential resolves to absent; otherwise the entry is `"<user>/<password>"`
and the accessors return the resolved credentials. -/
theorem c4_auth_derivation (env : ProcessEnv) (c : Neo4j) (img : Neo4jImage)
    (h : Neo4j.build env c = some img) :
    ((Neo4j.value env c.user = none ∨ Neo4j.value env c.pass = none) →
      envGet img.env_vars "NEO4J_AUTH" = some "none" ∧
      img.user = none ∧ img.password = none) ∧
    (∀ u p, Neo4j.value env c.user = some u → Neo4j.value env c.pass = some p →
      envGet img.env_vars "NEO4J_AUTH" = some (u ++ "/" ++ p) ∧
      img.user = some u ∧ img.password = some p) := by
  obtain ⟨hev, ha, -⟩ := build_elim env c img h
  have he := builtEnvVars_auth env c
  rw [← hev] at he
  constructor
  · rintro (hu | hp)
    · rw [hu] at ha he
      exact ⟨he, by simp [Neo4jImage.user, ha], by simp [Neo4jImage.password, ha]⟩
    · rw [hp] at ha he
      refine ⟨?_, ?_, ?_⟩
      · rw [he]
        cases Neo4j.value env c.user <;> rfl
      · cases hu2 : Neo4j.value env c.user <;> simp [Neo4jImage.user, ha, hu2]
      · cases hu2 : Neo4j.value env c.user <;> simp [Neo4jImage.password, ha, hu2]
  · intro u p hu hp
    rw [hu, hp] at ha he
    exact ⟨he, by simp [Neo4jImage.user, ha], by simp [Neo4jImage.password, ha]⟩

/-- Witness for C4: `without_authentication` yields the disabling token and
absent accessors; the fresh default configuration yields `"neo4j/neo"`. -/
theorem c4_auth_derivation_witness :
    (∃ img, Neo4j.build (fun _ => none) Neo4j.new.without_authentication = some img ∧
      (envGet img.env_vars "NEO4J_AUTH" = some "none" ∧
        img.user = none ∧ img.password = none)) ∧
    (∃ img, Neo4j.build (fun _ => none) Neo4j.new = some img ∧
      (envGet img.env_vars "NEO4J_AUTH" = some ("neo4j" ++ "/" ++ "neo") ∧
        img.user = some "neo4j" ∧ img.password = some "neo")) := by
  constructor
  · exact ⟨_, rfl,
      (c4_auth_derivation (fun _ => none) Neo4j.new.without_authentication _ rfl).1
        (Or.inl rfl)⟩
  · exact ⟨_, rfl,
      (c4_auth_derivation (fun _ => none) Neo4j.new _ rfl).2 "neo4j" "neo" rfl rfl⟩

/-- Counterexample to C5 as stated: the password `"éééé"` has 4 characters,
which is below 8, yet the built image carries no password-length-override
entry — the code compares Rust's `String::len`, the UTF-8 byte count
(8 here), not the character count. -/
theorem c5_pwlen_counterexample :
    "éééé".length = 4 ∧ "éééé".utf8ByteSize = 8 ∧
    (∃ img, Neo4j.build (fun _ => none) (Neo4j.new.with_password "éééé") = some img ∧
      envGet img.env_vars "NEO4J_dbms_security_auth__minimum__password__length" = none) :=
  ⟨by decide, by decide, _, rfl, rfl⟩

/-- C5 amended: the password-length-override entry is present with value the
resolved password's UTF-8 byte length (Rust `String::len`) exactly when the
password resolves to a value and that byte length is below 8; it is absent
when the password is `Unset` or its byte length is 8 or more. The check
depends only on the password field, not on whether authentication as a whole
is enabled: an unset user with a short password set still derives the entry. -/
theorem c5_pwlen (env : ProcessEnv) (c : Neo4j) (img : Neo4jImage)
    (h : Neo4j.build env c = some img) :
    envGet img.env_vars "NEO4J_dbms_security_auth__minimum__password__length" =
      match Neo4j.value env c.pass with
      | none => none
      | some pass =>
        if pass.utf8ByteSize < 8 then some (toString pass.utf8ByteSize) else none := by
  obtain ⟨hev, -, -⟩ := build_elim env c img h
  rw [hev]
  exact builtEnvVars_pwlen env c

/-- Witness for C5: password `"1337"` yields the entry with value `"4"`;
password `"Picard123"` (9 bytes) yields no entry; an unset password yields no
entry; and the check depends only on the password field — with the user unset
by `without_authentication` but a short password set afterwards, the derived
auth entry is the disabling token `"none"` yet the override entry is still
present with value `"4"`. -/
theorem c5_pwlen_witness :
    (∃ img, Neo4j.build (fun _ => none) (Neo4j.new.with_password "1337") = some img ∧
      envGet img.env_vars "NEO4J_dbms_security_auth__minimum__password__length" =
        some "4") ∧
    (∃ img, Neo4j.build (fun _ => none) (Neo4j.new.with_password "Picard123") = some img ∧
      envGet img.env_vars "NEO4J_dbms_security_auth__minimum__password__length" = none) ∧
    (∃ img, Neo4j.build (fun _ => none) Neo4j.new.without_authentication = some img ∧
      envGet img.env_vars "NEO4J_dbms_security_auth__minimum__password__length" = none) ∧
    (∃ img, Neo4j.build (fun _ => none)
        (Neo4j.new.without_authentication.with_password "1337") = some img ∧
      envGet img.env_vars "NEO4J_AUTH" = some "none" ∧
      envGet img.env_vars "NEO4J_dbms_security_auth__minimum__password__length" =
        some "4") := by
  refine ⟨⟨_, rfl, ?_⟩, ⟨_, rfl, ?_⟩, ⟨_, rfl, ?_⟩, ⟨_, rfl, rfl, ?_⟩⟩
  · exact (c5_pwlen (fun _ => none) (Neo4j.new.with_password "1337") _ rfl).trans (by rfl)
  · exact (c5_pwlen (fun _ => none) (Neo4j.new.with_password "Picard123") _ rfl).trans
      (by rfl)
  · exact (c5_pwlen (fun _ => none) Neo4j.new.without_authentication _ rfl).trans (by rfl)
  · exact (c5_pwlen (fun _ => none)
      (Neo4j.new.without_authentication.with_password "1337") _ rfl).trans (by rfl)

/-- Counterexample to C8 as stated: after `without_authentication`, a single
`with_user` call does not re-enable authentication — the password field stays
`Unset`, so the built image still derives `NEO4J_AUTH = "none"` and reports
no credentials. -/
theorem c8_without_auth_counterexample :
    (Neo4j.new.without_authentication.with_user "Benutzer").pass = Value.Unset ∧
    (∃ img, Neo4j.build (fun _ => none)
        (Neo4j.new.without_authentication.with_user "Benutzer") = some img ∧
      img.auth = none ∧ img.user = none ∧
      envGet img.env_vars "NEO4J_AUTH" = some "none") :=
  ⟨rfl, _, rfl, rfl, rfl, rfl⟩

/-- C8 amended: `without_authentication` sets both the user and the password
field to `Unset`, overriding any prior explicit values; authentication is
re-enabled only when both `with_user` and `with_password` are subsequently
called (in either order) — a single one of the two leaves authentication
disabled. -/
theorem c8_without_auth (env : ProcessEnv) (c : Neo4j) (u p : String) :
    (c.without_authentication.user = Value.Unset ∧
      c.without_authentication.pass = Value.Unset) ∧
    (∀ img, Neo4j.build env ((c.without_authentication.with_user u).with_password p) =
        some img →
      img.auth = some (u, p) ∧
      envGet img.env_vars "NEO4J_AUTH" = some (u ++ "/" ++ p)) ∧
    (∀ img, Neo4j.build env ((c.without_authentication.with_password p).with_user u) =
        some img →
      img.auth = some (u, p) ∧
      envGet img.env_vars "NEO4J_AUTH" = some (u ++ "/" ++ p)) ∧
    (∀ img, Neo4j.build env (c.without_authentication.with_user u) = some img →
      img.auth = none ∧ envGet img.env_vars "NEO4J_AUTH" = some "none") ∧
    (∀ img, Neo4j.build env (c.without_authentication.with_password p) = some img →
      img.auth = none ∧ envGet img.env_vars "NEO4J_AUTH" = some "none") := by
  refine ⟨⟨rfl, rfl⟩, ?_, ?_, ?_, ?_⟩ <;>
    · intro img h
      obtain ⟨hev, ha, -⟩ := build_elim env _ img h
      refine ⟨ha, ?_⟩
      rw [hev]
      exact builtEnvVars_auth env _

/-- Witness for C8 at the fresh configuration with user `"u"`, password
`"p"`. -/
theorem c8_without_auth_witness :
    ∃ img, Neo4j.build (fun _ => none)
        ((Neo4j.new.without_authentication.with_user "u").with_password "p") = some img ∧
      img.auth = some ("u", "p") ∧
      envGet img.env_vars "NEO4J_AUTH" = some ("u" ++ "/" ++ "p") :=
  ⟨_, rfl, (c8_without_auth (fun _ => none) Neo4j.new "u" "p").2.1 _ rfl⟩

/-- Counterexample to C2 as stated: for the plugin set
`[GraphDataScience, Streams]` the code derives the entry
`["streams","graph-data-science"]` — the derived `Ord` sorts `Streams`
(declared fourth) before `GraphDataScience` (declared fifth) — while sorting
by canonical display form, as the claim says, would give
`["graph-data-science","streams"]`. -/
theorem c2_plugins_counterexample :
    (∃ img, Neo4j.build (fun _ => none)
        (Neo4j.new.with_neo4j_labs_plugin [.GraphDataScience, .Streams]) = some img ∧
      envGet img.env_vars "NEO4JLABS_PLUGINS" =
        some "[\"streams\",\"graph-data-science\"]") ∧
    pluginsEntryByDisplay [.GraphDataScience, .Streams] =
      some "[\"graph-data-science\",\"streams\"]" ∧
    ("[\"streams\",\"graph-data-science\"]" : String) ≠
      "[\"graph-data-science\",\"streams\"]" :=
  ⟨⟨_, rfl, rfl⟩, by decide, by decide⟩

/-- C2 amended: a built configuration has no plugin entry when the plugin
set is empty; when it is non-empty, the entry serializes the unique strictly
sorted duplicate-free list with the same members as the accumulated plugin
list — strictly sorted in the derived plugin order (declaration order of the
enumeration variants, then `Custom` ordered by its carried name), which is
not the display-form order — each display form double-quoted, comma-joined,
and wrapped in brackets. -/
theorem c2_plugins_env (env : ProcessEnv) (c : Neo4j) (img : Neo4jImage)
    (h : Neo4j.build env c = some img) :
    (c.plugins = [] → envGet img.env_vars "NEO4JLABS_PLUGINS" = none) ∧
    (c.plugins ≠ [] → ∃ l : List Neo4jLabsPlugin,
      l.Sorted (· < ·) ∧ (∀ p, p ∈ l ↔ p ∈ c.plugins) ∧
      envGet img.env_vars "NEO4JLABS_PLUGINS" =
        some ("[" ++ String.intercalate ","
          (l.map fun p => "\"" ++ p.display ++ "\"") ++ "]")) := by
  obtain ⟨hev, -, -⟩ := build_elim env c img h
  rw [hev]
  constructor
  · intro hp
    rw [builtEnvVars_plugins, hp]
    rfl
  · intro hp
    have hne : (dedupConsec (List.insertionSort (· ≤ ·) c.plugins)).isEmpty ≠ true := by
      intro hemp
      rw [List.isEmpty_iff] at hemp
      obtain ⟨x, hx⟩ := List.exists_mem_of_ne_nil c.plugins hp
      have hmem : x ∈ dedupConsec (List.insertionSort (· ≤ ·) c.plugins) :=
        (mem_dedupConsec x _).2 ((List.mem_insertionSort _).2 hx)
      rw [hemp] at hmem
      cases hmem
    refine ⟨dedupConsec (List.insertionSort (· ≤ ·) c.plugins),
      dedupConsec_sorted _ (List.sorted_insertionSort _ _),
      fun p => (mem_dedupConsec p _).trans (List.mem_insertionSort _), ?_⟩
    rw [builtEnvVars_plugins, if_neg hne]

/-- Witness for C2 at the plugin set `[Apoc]`. -/
theorem c2_plugins_env_witness :
    ∃ img, Neo4j.build (fun _ => none)
        (Neo4j.new.with_neo4j_labs_plugin [.Apoc]) = some img ∧
      ∃ l : List Neo4jLabsPlugin, l.Sorted (· < ·) ∧
        (∀ p, p ∈ l ↔ p ∈ (Neo4j.new.with_neo4j_labs_plugin [.Apoc]).plugins) ∧
        envGet img.env_vars "NEO4JLABS_PLUGINS" =
          some ("[" ++ String.intercalate ","
            (l.map fun p => "\"" ++ p.display ++ "\"") ++ "]") :=
  ⟨_, rfl,
    (c2_plugins_env (fun _ => none) (Neo4j.new.with_neo4j_labs_plugin [.Apoc]) _ rfl).2
      (by decide)⟩

/-- C3: the derived plugin entry after `build` is a pure function of the
underlying plugin set — two sequences of `with_neo4j_labs_plugin` calls on
the same base whose accumulated lists have the same members produce
byte-identical entries; in particular adding `[Apoc]` then `[Bloom, Apoc]`
equals adding `[Apoc, Bloom]` once, with the literal entry
`["apoc","bloom"]`. -/
theorem c3_plugin_determinism :
    (∀ (env : ProcessEnv) (c : Neo4j) (calls₁ calls₂ : List (List Neo4jLabsPlugin)),
      (∀ p, p ∈ c.plugins ++ calls₁.flatten ↔ p ∈ c.plugins ++ calls₂.flatten) →
      pluginEntryAfter env c calls₁ = pluginEntryAfter env c calls₂) ∧
    pluginEntryAfter (fun _ => none) Neo4j.new [[.Apoc], [.Bloom, .Apoc]] =
      pluginEntryAfter (fun _ => none) Neo4j.new [[.Apoc, .Bloom]] ∧
    pluginEntryAfter (fun _ => none) Neo4j.new [[.Apoc, .Bloom]] =
      some (some "[\"apoc\",\"bloom\"]") := by
  refine ⟨?_, by decide, by decide⟩
  intro env c calls₁ calls₂ hmem
  unfold pluginEntryAfter
  rw [foldl_with_plugin, foldl_with_plugin]
  have hdedup := sortDedup_eq_of_mem_iff hmem
  cases hv : Neo4j.value env c.version with
  | none =>
    rw [build_none env { c with plugins := c.plugins ++ calls₁.flatten } hv,
      build_none env { c with plugins := c.plugins ++ calls₂.flatten } hv]
  | some v =>
    rw [build_eq env { c with plugins := c.plugins ++ calls₁.flatten } v hv,
      build_eq env { c with plugins := c.plugins ++ calls₂.flatten } v hv]
    simp only [Option.map_some']
    congr 1
    rw [builtEnvVars_plugins, builtEnvVars_plugins]
    dsimp only
    rw [hdedup]

/-- Witness for C3: the concrete call sequences `[[Apoc], [Bloom, Apoc]]`
and `[[Apoc, Bloom]]` accumulate the same set and derive the same entry. -/
theorem c3_plugin_determinism_witness :
    (∀ p : Neo4jLabsPlugin,
      p ∈ Neo4j.new.plugins ++
          ([[.Apoc], [.Bloom, .Apoc]] : List (List Neo4jLabsPlugin)).flatten ↔
      p ∈ Neo4j.new.plugins ++
          ([[.Apoc, .Bloom]] : List (List Neo4jLabsPlugin)).flatten) ∧
    pluginEntryAfter (fun _ => none) Neo4j.new [[.Apoc], [.Bloom, .Apoc]] =
      pluginEntryAfter (fun _ => none) Neo4j.new [[.Apoc, .Bloom]] := by
  have hmem : ∀ p : Neo4jLabsPlugin,
      p ∈ Neo4j.new.plugins ++
          ([[.Apoc], [.Bloom, .Apoc]] : List (List Neo4jLabsPlugin)).flatten ↔
      p ∈ Neo4j.new.plugins ++
          ([[.Apoc, .Bloom]] : List (List Neo4jLabsPlugin)).flatten := by
    intro p
    simp [Neo4j.new]
    tauto
  exact ⟨hmem, c3_plugin_determinism.1 (fun _ => none) Neo4j.new _ _ hmem⟩

/-- C6: with the version resolving to `v`, `with_enterprise_edition` succeeds
exactly when the acceptance file has a successfully read line that trims to
`neo4j:<v>-enterprise`; it fails otherwise (file missing, unreadable, or no
matching line) with the `LicenseNotAccepted` message, which names the
acceptance file and the required line; on success the configuration is
marked enterprise and the image built from it has a version ending in
`-enterprise` plus the entry `NEO4J_ACCEPT_LICENSE_AGREEMENT = "yes"`. -/
theorem c6_enterprise (env : ProcessEnv) (file : Option (List (Option String)))
    (c : Neo4j) (v : String) (hv : Neo4j.value env c.version = some v) :
    ((∃ c', Neo4j.with_enterprise_edition env file c = some (.ok c')) ↔
      hasLicenseAcceptance file ("neo4j:" ++ v ++ "-enterprise") = true) ∧
    (hasLicenseAcceptance file ("neo4j:" ++ v ++ "-enterprise") ≠ true →
      Neo4j.with_enterprise_edition env file c =
        some (.error (licenseMsg ("neo4j:" ++ v ++ "-enterprise")))) ∧
    (∀ c', Neo4j.with_enterprise_edition env file c = some (.ok c') →
      c' = { c with enterprise := true } ∧
      ∀ img, Neo4j.build env c' = some img →
        img.version = v ++ "-enterprise" ∧
        (∃ pre, img.version = pre ++ "-enterprise") ∧
        envGet img.env_vars "NEO4J_ACCEPT_LICENSE_AGREEMENT" = some "yes") := by
  unfold Neo4j.with_enterprise_edition
  rw [hv]
  dsimp only
  by_cases hl : hasLicenseAcceptance file ("neo4j:" ++ v ++ "-enterprise") = true
  · rw [if_pos hl]
    refine ⟨⟨fun _ => hl, fun _ => ⟨_, rfl⟩⟩, fun hf => absurd hl hf, ?_⟩
    intro c' hc'
    injection hc' with hc'
    injection hc' with hc'
    subst hc'
    refine ⟨rfl, ?_⟩
    intro img himg
    obtain ⟨hev, -, v', hv', hver, -⟩ := build_elim env _ img himg
    have hvv : v' = v := by
      have h2 : Neo4j.value env c.version = some v' := hv'
      rw [hv] at h2
      exact (Option.some.inj h2).symm
    subst hvv
    refine ⟨by rw [hver]; rfl, ⟨v', by rw [hver]; rfl⟩, ?_⟩
    rw [hev, builtEnvVars_license]
    rfl
  · rw [if_neg hl]
    refine ⟨⟨?_, fun hll => absurd hll hl⟩, fun _ => rfl, ?_⟩
    · rintro ⟨c', hc'⟩
      injection hc' with hc'
      cases hc'
    · intro c' hc'
      injection hc' with hc'
      cases hc'

/-- Witness for C6 at the fresh configuration (version `"5"`): success with
a correctly formatted acceptance file, failure with a missing file, and the
enterprise build artifacts. -/
theorem c6_enterprise_witness :
    (∃ c', Neo4j.with_enterprise_edition (fun _ => none)
        (some [some "neo4j:5-enterprise"]) Neo4j.new = some (.ok c')) ∧
    Neo4j.with_enterprise_edition (fun _ => none) none Neo4j.new =
      some (.error (licenseMsg ("neo4j:" ++ "5" ++ "-enterprise"))) ∧
    (∃ img, Neo4j.build (fun _ => none) { Neo4j.new with enterprise := true } =
        some img ∧
      img.version = "5" ++ "-enterprise" ∧
      envGet img.env_vars "NEO4J_ACCEPT_LICENSE_AGREEMENT" = some "yes") := by
  refine ⟨(c6_enterprise (fun _ => none) (some [some "neo4j:5-enterprise"]) Neo4j.new "5"
      rfl).1.mpr (by decide),
    (c6_enterprise (fun _ => none) none Neo4j.new "5" rfl).2.1 (by decide), ?_⟩
  obtain ⟨c', hc'⟩ := (c6_enterprise (fun _ => none) (some [some "neo4j:5-enterprise"])
    Neo4j.new "5" rfl).1.mpr (by decide)
  obtain ⟨hceq, himg⟩ := (c6_enterprise (fun _ => none) (some [some "neo4j:5-enterprise"])
    Neo4j.new "5" rfl).2.2 c' hc'
  subst hceq
  obtain ⟨h1, -, h3⟩ := himg _ rfl
  exact ⟨_, rfl, h1, h3⟩

/-- C9: along every sequence of builder operations starting from `new` or
`from_env`, the version field is never `Unset`; hence version resolution
always succeeds, `build` always yields an image, and the version `expect`s
in `build` and `with_enterprise_edition` (modelled by `none`) are
unreachable. -/
theorem c9_version_always_set (c : Neo4j) (h : Reachable c) :
    c.version ≠ Value.Unset ∧
    (∀ env : ProcessEnv, ∃ v, Neo4j.value env c.version = some v) ∧
    (∀ env : ProcessEnv, ∃ img, Neo4j.build env c = some img) ∧
    (∀ (env : ProcessEnv) (file : Option (List (Option String))),
      Neo4j.with_enterprise_edition env file c ≠ none) := by
  have hv : c.version ≠ Value.Unset := by
    induction h with
    | new => simp [Neo4j.new]
    | from_env => simp [Neo4j.from_env]
    | with_version c c' s hr heq ih =>
      unfold Neo4j.with_version at heq
      split at heq
      · injection heq with heq
        subst heq
        simp
      · cases heq
    | with_user c u hr ih => exact ih
    | with_password c p hr ih => exact ih
    | without_authentication c hr ih => exact ih
    | with_enterprise_edition c c' env file hr heq ih =>
      unfold Neo4j.with_enterprise_edition at heq
      split at heq
      · cases heq
      · dsimp only at heq
        split at heq
        · injection heq with heq
          injection heq with heq
          subst heq
          exact ih
        · injection heq with heq
          cases heq
    | with_neo4j_labs_plugin c ps hr ih => exact ih
  have hsome : ∀ env : ProcessEnv, ∃ v, Neo4j.value env c.version = some v := by
    intro env
    cases hcv : c.version with
    | Env var fallback => exact ⟨_, rfl⟩
    | Default v => exact ⟨v, rfl⟩
    | Value v => exact ⟨v, rfl⟩
    | Unset => exact absurd hcv hv
  refine ⟨hv, hsome, ?_, ?_⟩
  · intro env
    obtain ⟨v, hvv⟩ := hsome env
    exact ⟨_, build_eq env c v hvv⟩
  · intro env file
    obtain ⟨v, hvv⟩ := hsome env
    unfold Neo4j.with_enterprise_edition
    rw [hvv]
    dsimp only
    split <;> simp

/-- Witness for C9: the fresh builder is reachable, builds an image, and its
enterprise gate never hits the version panic. -/
theorem c9_version_always_set_witness :
    Reachable Neo4j.new ∧
    (∃ img, Neo4j.build (fun _ => none) Neo4j.new = some img) ∧
    Neo4j.with_enterprise_edition (fun _ => none) none Neo4j.new ≠ none :=
  ⟨Reachable.new,
    (c9_version_always_set Neo4j.new Reachable.new).2.2.1 (fun _ => none),
    (c9_version_always_set Neo4j.new Reachable.new).2.2.2 (fun _ => none) none⟩

end Neo4jTC
